import Mathlib

/-!
# Verification of the claude-replay core against its specification

Shallow embedding of the repository's core components:
* the line-level diff engine (`computeDiff`, `splitLines` from the replay package),
* the JSONL line decoder (`Parse`) and metadata scanner (`QuickScan`) of the
  parser package,
* the turn segmenter (`segmentTurns` of the session package) together with the
  user-message classification helpers of the parser package
  (`IsBashInput`, `IsBashOutput`, `CommandName`, `ParseToolResults`, ...).

Go strings are modelled as Lean `String`s (the texts involved are UTF-8 and the
relevant markers are ASCII, so rune-level and byte-level substring reasoning
agree); JSON payloads that the code re-parses lazily are modelled as sum types
recording the possible parse outcomes (`Option`/constructor `other` for a
failing `json.Unmarshal`); `time.Duration` values are carried in integral
milliseconds, exactly the granularity the code produces from `durationMs`.
-/

namespace ClaudeReplay

/-! ## Diff engine (replay package: `diffOp`, `computeDiff`, `splitLines`) -/

/-- One line of a computed diff. Mirrors
`type diffOp struct { Kind byte; Text string }`; the kind byte is `' '` for
context, `'+'` for added, `'-'` for removed. -/
structure diffOp where
  kind : Char
  text : String
deriving DecidableEq, Repr

/-- `strings.Split(s, "\n")` on the character list of `s` (a nonempty split:
no separator yields the singleton list). -/
def splitNl : List Char → List (List Char)
  | [] => [[]]
  | c :: cs =>
    if c = '\n' then [] :: splitNl cs
    else
      match splitNl cs with
      | [] => [[c]]
      | l :: ls => (c :: l) :: ls

/-- `func splitLines(s string) []string`: empty string maps to zero lines,
otherwise `strings.Split(s, "\n")`. -/
def splitLines (s : String) : List String :=
  if s = "" then [] else (splitNl s.toList).map (fun l => String.mk l)

/-- The LCS dynamic-programming table of `computeDiff`: `lcsTable old new i j`
is `dp[i][j]` of the Go code, the table filled by
`if oldLines[i-1] == newLines[j-1] { dp[i][j] = dp[i-1][j-1] + 1 }
 else if dp[i-1][j] >= dp[i][j-1] { dp[i][j] = dp[i-1][j] } else { dp[i][j] = dp[i][j-1] }`. -/
def lcsTable (oldL newL : List String) (i j : Nat) : Nat :=
  match i, j with
  | 0, _ => 0
  | _ + 1, 0 => 0
  | i' + 1, j' + 1 =>
    if oldL.getD i' "" = newL.getD j' "" then
      lcsTable oldL newL i' j' + 1
    else if lcsTable oldL newL i' (j' + 1) ≥ lcsTable oldL newL (i' + 1) j' then
      lcsTable oldL newL i' (j' + 1)
    else
      lcsTable oldL newL (i' + 1) j'
termination_by i + j

/-- The backtracking loop of `computeDiff`, producing the ops in forward order
(the Go code emits them reversed and reverses at the end; emitting the op for
position `(i, j)` after the recursive call on the smaller position is the same
list).  Branch order mirrors the Go loop:
context when both sides remain and the lines agree, otherwise
`j > 0 && (i == 0 || dp[i][j-1] >= dp[i-1][j])` emits `'+'`, else `'-'`. -/
def backtrack (oldL newL : List String) (i j : Nat) : List diffOp :=
  match i, j with
  | 0, 0 => []
  | 0, j' + 1 => backtrack oldL newL 0 j' ++ [⟨'+', newL.getD j' ""⟩]
  | i' + 1, 0 => backtrack oldL newL i' 0 ++ [⟨'-', oldL.getD i' ""⟩]
  | i' + 1, j' + 1 =>
    if oldL.getD i' "" = newL.getD j' "" then
      backtrack oldL newL i' j' ++ [⟨' ', oldL.getD i' ""⟩]
    else if lcsTable oldL newL (i' + 1) j' ≥ lcsTable oldL newL i' (j' + 1) then
      backtrack oldL newL (i' + 1) j' ++ [⟨'+', newL.getD j' ""⟩]
    else
      backtrack oldL newL i' (j' + 1) ++ [⟨'-', oldL.getD i' ""⟩]
termination_by i + j

/-- `func computeDiff(oldStr, newStr string) []diffOp`. -/
def computeDiff (oldStr newStr : String) : List diffOp :=
  let oldL := splitLines oldStr
  let newL := splitLines newStr
  backtrack oldL newL oldL.length newL.length

/-- The Added and Context lines of a diff, in output order. -/
def newSide (ops : List diffOp) : List String :=
  (ops.filter (fun op => op.kind == '+' || op.kind == ' ')).map diffOp.text

/-- The Removed and Context lines of a diff, in output order. -/
def oldSide (ops : List diffOp) : List String :=
  (ops.filter (fun op => op.kind == '-' || op.kind == ' ')).map diffOp.text

/-! ## Parser data model (parser package)

`json.RawMessage` fields that the code re-parses on demand are modelled as sum
types enumerating the parse outcomes the Go code distinguishes. -/

/-- One `{type, text}` object inside a tool result's content array. -/
structure TRBlock where
  type : String
  text : String
deriving DecidableEq, Repr

/-- The raw `Content` of a `ToolResult` as `extractToolResultContent`
distinguishes it: empty raw message, a JSON string, an array of
`{type, text}` objects, or any other JSON value (whose raw text is kept). -/
inductive TRContent
  | empty
  | str (s : String)
  | blocks (bs : List TRBlock)
  | other (raw : String)
deriving DecidableEq, Repr

/-- `type ToolResult struct { Type, ToolUseID string; Content json.RawMessage; IsError *bool }`. -/
structure ToolResult where
  type : String
  toolUseID : String
  content : TRContent
  isError : Option Bool
deriving DecidableEq, Repr

/-- The raw `Content` of a `UserMessage`: a JSON string (plain user text), a
JSON array (first byte `'['`, so `IsToolResults` holds; `results = none` when
`ParseToolResults`'s unmarshal fails), or any other JSON value (on which
`UserText` returns `""` and `IsToolResults` is false). -/
inductive UserContent
  | str (s : String)
  | arr (results : Option (List ToolResult))
  | other
deriving DecidableEq, Repr

/-- `type UserMessage struct { Role string; Content json.RawMessage }`. -/
structure UserMessage where
  role : String
  content : UserContent
deriving DecidableEq, Repr

/-- The `Input json.RawMessage` of a `tool_use` content block: `nil`, or a
present raw value together with the result of unmarshalling it into
`map[string]interface{}` (`none` when that unmarshal fails; the parsed map is
modelled as an association list). -/
inductive ToolUseInput
  | nil
  | val (raw : String) (parsed : Option (List (String × String)))
deriving DecidableEq, Repr

/-- `type ContentBlock struct { Type, Text, Thinking, ID, Name string; Input json.RawMessage }`
(the `Signature` field is never read by the segmenter and is omitted). -/
structure ContentBlock where
  type : String
  text : String
  thinking : String
  id : String
  name : String
  input : ToolUseInput
deriving DecidableEq, Repr

/-- `type AssistantMessage struct { Model string; Content []ContentBlock; ... }`
(ID, Role, StopReason and Usage are never read by the segmenter). -/
structure AssistantMessage where
  model : String
  content : List ContentBlock
deriving DecidableEq, Repr

/-- `type Record struct {...}` of the parser package.  The raw `Message` field
is modelled by the outcomes of the two parses the code may apply to it:
`userMsg` is the result of `ParseUserMessage` and `asstMsg` the result of
`ParseAssistantMessage` (`none` = that unmarshal fails).  A record is only
ever parsed with the accessor matching its `type`. -/
structure Record where
  type : String
  parentUUID : Option String
  uuid : String
  sessionID : String
  timestamp : String
  cwd : String
  gitBranch : String
  slug : String
  version : String
  isSidechain : Bool
  isMeta : Bool
  userMsg : Option UserMessage
  asstMsg : Option AssistantMessage
  subtype : String
  durationMs : Nat
deriving DecidableEq, Repr

/-- A record with every field zero-valued, for building concrete inputs. -/
def baseRec : Record :=
  { type := "", parentUUID := none, uuid := "", sessionID := "", timestamp := ""
    cwd := "", gitBranch := "", slug := "", version := "", isSidechain := false
    isMeta := false, userMsg := none, asstMsg := none, subtype := "", durationMs := 0 }

/-! ## Line decoder (`func Parse(r io.Reader) ([]Record, error)`) -/

/-- One input line as the decoder's scanner sees it: empty, not valid JSON of
the expected record shape (`json.Unmarshal` fails), or a decoded record. -/
inductive Line
  | empty
  | malformed
  | ok (r : Record)
deriving DecidableEq, Repr

/-- The record a line decodes to, if any. -/
def decodedOf : Line → Option Record
  | .ok r => some r
  | _ => none

/-- The decoder loop of `Parse`: skip empty lines, skip unmarshal failures,
filter out `progress` and `file-history-snapshot` records, skip sidechain
records, keep the rest in order. -/
def Parse : List Line → List Record
  | [] => []
  | .empty :: ls => Parse ls
  | .malformed :: ls => Parse ls
  | .ok r :: ls =>
    if r.type = "progress" ∨ r.type = "file-history-snapshot" then Parse ls
    else if r.isSidechain then Parse ls
    else r :: Parse ls

/-! ## Character-list utilities modelling the Go regexes

`regexp` in the source is only used on four fixed patterns
(`bash-input`, `bash-stdout`, `bash-stderr`, `command-name` tags); each is
modelled by an explicit scanning function with the same matching semantics. -/

/-- `pat` is a prefix of `l`. -/
def isPre : List Char → List Char → Bool
  | [], _ => true
  | _ :: _, [] => false
  | a :: p, b :: l => a == b && isPre p l

/-- `pat` is a suffix of `l`. -/
def isSuf (pat l : List Char) : Bool := isPre pat.reverse l.reverse

/-- `bytes.Contains`: `pat` occurs contiguously somewhere in `l`. -/
def containsSeq (pat : List Char) : List Char → Bool
  | [] => pat.isEmpty
  | l@(_ :: rest) => isPre pat l || containsSeq pat rest

/-- The characters of `l` strictly before the first occurrence of `pat`
(`none` if `pat` does not occur). -/
def splitFirst (pat : List Char) : List Char → Option (List Char)
  | [] => if pat.isEmpty then some [] else none
  | c :: rest =>
    if isPre pat (c :: rest) then some []
    else (splitFirst pat rest).map (fun m => c :: m)

/-- First (leftmost, shortest-middle) match of the unanchored pattern
`op` `([\s\S]*?)` `cl`, returning the captured middle:
the match starts at the first position where `op` is a prefix and `cl` occurs
later, and the middle runs to the first following occurrence of `cl`. -/
def extractTag (op cl : List Char) : List Char → Option (List Char)
  | [] => none
  | t@(_ :: rest) =>
    if isPre op t then
      match splitFirst cl (t.drop op.length) with
      | some mid => some mid
      | none => extractTag op cl rest
    else extractTag op cl rest

def bashInOpen : List Char := "<bash-input>".toList
def bashInClose : List Char := "</bash-input>".toList
def stdoutOpen : List Char := "<bash-stdout>".toList
def stdoutClose : List Char := "</bash-stdout>".toList
def stderrOpen : List Char := "<bash-stderr>".toList
def stderrClose : List Char := "</bash-stderr>".toList
def cmdOpen : List Char := "<command-name>".toList
def cmdClose : List Char := "</command-name>".toList

/-- `bashInputRe = ^<bash-input>([\s\S]*)</bash-input>$` matches the whole
text exactly when it starts with the opening tag, ends with the closing tag,
and is long enough for the two tags not to overlap (12 + 13 characters). -/
def isBashInput (s : String) : Bool :=
  isPre bashInOpen s.toList && isSuf bashInClose s.toList && 25 ≤ s.toList.length

/-- `func (msg *UserMessage) ParseBashInput() string`: the capture of the
anchored greedy group, i.e. everything between the two tags. -/
def parseBashInput (s : String) : String :=
  if isBashInput s then
    String.mk ((s.toList.drop 12).take (s.toList.length - 25))
  else ""

/-- `func (msg *UserMessage) IsBashOutput() bool`:
`bashStdoutRe.MatchString(text) || bashStderrRe.MatchString(text)`. -/
def isBashOutput (s : String) : Bool :=
  (extractTag stdoutOpen stdoutClose s.toList).isSome ||
  (extractTag stderrOpen stderrClose s.toList).isSome

/-- `func (msg *UserMessage) ParseBashOutput() (stdout, stderr string)`:
each component is the first lazy capture of its tag pair, `""` if no match. -/
def parseBashOutput (s : String) : String × String :=
  (((extractTag stdoutOpen stdoutClose s.toList).map String.mk).getD "",
   ((extractTag stderrOpen stderrClose s.toList).map String.mk).getD "")

/-- One candidate position for `commandNameRe = <command-name>(/[^<]+)</command-name>`:
after the opening tag the greedy `[^<]+` run must start with `'/'`, be at
least two characters, and be followed immediately by the closing tag. -/
def cmdNameAt (t : List Char) : Option (List Char) :=
  if isPre cmdOpen t then
    let rest := t.drop 14
    let run := rest.takeWhile (fun c => c ≠ '<')
    if isPre ['/'] run && 2 ≤ run.length && isPre cmdClose (rest.drop run.length) then
      some run
    else none
  else none

/-- Leftmost match of `commandNameRe`, scanning start positions left to right. -/
def findCmdName : List Char → Option (List Char)
  | [] => none
  | t@(_ :: rest) =>
    match cmdNameAt t with
    | some r => some r
    | none => findCmdName rest

/-- `func (msg *UserMessage) UserText() string`: the content if it is a JSON
string, `""` otherwise (array or other shapes fail the string unmarshal). -/
def userTextOf (msg : UserMessage) : String :=
  match msg.content with
  | .str s => s
  | _ => ""

/-- `func (msg *UserMessage) CommandName() (string, bool)` applied to a text. -/
def commandNameOf (s : String) : Option String :=
  (findCmdName s.toList).map String.mk

/-! ## Metadata scanner (`func QuickScan`) -/

/-- The `content` of a `quickRecord`'s message as `QuickScan` distinguishes
it by first byte: missing/empty raw (`len == 0`), a JSON string (first byte
`'"'`, with the raw token's characters kept for the `bytes.Contains` marker
check), a JSON array (first byte `'['`; `types` lists the items' `type`
fields, `none` when the unmarshal into `[]struct{Type string}` fails), or
anything else. -/
inductive QContent
  | absent
  | str (raw : String)
  | arr (types : Option (List String))
  | other
deriving DecidableEq, Repr

/-- The nested message object of a `quickRecord`. -/
structure QMsg where
  role : String
  model : String
  content : QContent
deriving DecidableEq, Repr

/-- `quickRecord`: the trimmed-down per-line struct `QuickScan` unmarshals
into.  `isSidechain` is present in the input but never decoded or read by
`QuickScan`; it is carried here to state that independence. -/
structure QRec where
  type : String
  slug : String
  timestamp : String
  subtype : String
  isMeta : Bool
  isSidechain : Bool
  message : Option QMsg
deriving DecidableEq, Repr

/-- A `QuickScan` input line: `none` when the line is empty or does not
unmarshal into `quickRecord`. -/
abbrev QLine := Option QRec

/-- The scanner's accumulated result
`(slug, model, firstTime, lastTime, turnCount)`. -/
structure QuickState where
  slug : String
  model : String
  firstTime : String
  lastTime : String
  turnCount : Nat
deriving DecidableEq, Repr

def stdoutMarker : List Char := "bash-stdout".toList
def stderrMarker : List Char := "bash-stderr".toList

/-- The timestamp statement of the `QuickScan` loop body:
`if rec.Timestamp != "" { if firstTime == "" { firstTime = rec.Timestamp }; lastTime = rec.Timestamp }`. -/
def quickTs (st : QuickState) (rec : QRec) : QuickState :=
  if rec.timestamp ≠ "" then
    { st with
      firstTime := if st.firstTime = "" then rec.timestamp else st.firstTime
      lastTime := rec.timestamp }
  else st

/-- The slug statement of the `QuickScan` loop body:
`if rec.Slug != "" && slug == "" { slug = rec.Slug }`. -/
def quickSlug (st : QuickState) (rec : QRec) : QuickState :=
  if rec.slug ≠ "" ∧ st.slug = "" then { st with slug := rec.slug } else st

/-- The user-message turn-counting branch of the `QuickScan` loop body. -/
def quickCount (st : QuickState) (rec : QRec) : QuickState :=
  if rec.type = "user" then
    match rec.message with
    | none => st
    | some m =>
      if m.role = "user" then
        if rec.isMeta then st
        else
          match m.content with
          | .str raw =>
            if containsSeq stdoutMarker raw.toList
                || containsSeq stderrMarker raw.toList then st
            else { st with turnCount := st.turnCount + 1 }
          | .arr types =>
            match types with
            | some (t :: _) =>
              if t ≠ "tool_result" then { st with turnCount := st.turnCount + 1 }
              else st
            | _ => st
          | .absent => st
          | .other => st
      else st
  else st

/-- The assistant-model branch of the `QuickScan` loop body:
`if rec.Type == "assistant" && rec.Message != nil && rec.Message.Model != "" && model == ""`. -/
def quickModel (st : QuickState) (rec : QRec) : QuickState :=
  if rec.type = "assistant" then
    match rec.message with
    | some m =>
      if m.model ≠ "" ∧ st.model = "" then { st with model := m.model } else st
    | none => st
  else st

/-- One iteration of the `QuickScan` loop, the four statements of the loop
body in the Go order: timestamps, slug, the user-message turn-counting
branch, then the assistant-model branch (an unparsed or empty line leaves
the state untouched). -/
def quickStep (st : QuickState) (l : QLine) : QuickState :=
  match l with
  | none => st
  | some rec => quickModel (quickCount (quickSlug (quickTs st rec) rec) rec) rec

/-- `func QuickScan(path string) (slug, model, firstTime, lastTime string, turnCount int, err error)`,
as a fold over the decoded lines. -/
def QuickScan (lines : List QLine) : QuickState :=
  lines.foldl quickStep
    { slug := "", model := "", firstTime := "", lastTime := "", turnCount := 0 }

/-- The claim's counting condition, worded from the spec: a user-authored
message (user record, user role), not meta-flagged, whose content is either a
plain string free of the embedded `bash-stdout`/`bash-stderr` markers, or a
parseable non-empty array whose first item is not a tool result. -/
def countedAsTurn (l : QLine) : Bool :=
  match l with
  | none => false
  | some rec =>
    rec.type == "user" &&
      (match rec.message with
       | none => false
       | some m =>
         m.role == "user" && !rec.isMeta &&
           (match m.content with
            | .str raw =>
              !(containsSeq stdoutMarker raw.toList || containsSeq stderrMarker raw.toList)
            | .arr (some (t :: _)) => t != "tool_result"
            | _ => false))

/-- The timestamp a line contributes to the scanner's time range: any line
that parses carries its `timestamp` field when non-empty, regardless of
record type, meta flag or sidechain flag. -/
def tsOf (l : QLine) : Option String :=
  match l with
  | none => none
  | some rec => if rec.timestamp = "" then none else some rec.timestamp

/-! ## Turn segmenter (session package: `segmentTurns`) -/

/-- `type BlockType int` with its four constants. -/
inductive BlockType
  | text
  | thinking
  | toolUse
  | toolResult
deriving DecidableEq, Repr

/-- `type Block struct {...}` of the session package. -/
structure Block where
  type : BlockType
  text : String
  toolName : String
  toolInput : Option (List (String × String))
  toolID : String
  isError : Bool
  rawInput : String
deriving DecidableEq, Repr

def textBlock (t : String) : Block :=
  { type := .text, text := t, toolName := "", toolInput := none, toolID := ""
    isError := false, rawInput := "" }

def thinkingBlock (t : String) : Block :=
  { type := .thinking, text := t, toolName := "", toolInput := none, toolID := ""
    isError := false, rawInput := "" }

/-- `type Turn struct {...}`; `Duration` is carried in milliseconds. -/
structure Turn where
  number : Nat
  userText : String
  blocks : List Block
  timestamp : String
  duration : Nat
  model : String
  cwd : String
  gitBranch : String
  slug : String
deriving DecidableEq, Repr

/-- The session-level metadata `segmentTurns` fills into `sess`. -/
structure SessMeta where
  id : String
  slug : String
  version : String
  cwd : String
  gitBranch : String
  model : String
deriving DecidableEq, Repr

/-- The segmenter's loop state: closed turns, the currently open turn,
the running turn number, the pending duration (ms), and session metadata. -/
structure SegState where
  turns : List Turn
  current : Option Turn
  turnNum : Nat
  pending : Nat
  sess : SessMeta
deriving DecidableEq, Repr

def initSeg : SegState :=
  { turns := [], current := none, turnNum := 0, pending := 0
    sess := { id := "", slug := "", version := "", cwd := "", gitBranch := "", model := "" } }

/-- The metadata extraction at the top of the `segmentTurns` loop body. -/
def metaUpd (m : SessMeta) (rec : Record) : SessMeta :=
  { m with
    id := if m.id = "" ∧ rec.sessionID ≠ "" then rec.sessionID else m.id
    slug := if m.slug = "" ∧ rec.slug ≠ "" then rec.slug else m.slug
    version := if m.version = "" ∧ rec.version ≠ "" then rec.version else m.version }

/-- `func extractToolResultContent(raw json.RawMessage) string`. -/
def extractToolResultContent : TRContent → String
  | .empty => ""
  | .str s => s
  | .blocks bs =>
    String.intercalate "\n" (bs.filterMap (fun b => if b.text = "" then none else some b.text))
  | .other raw => raw

/-- The `BlockToolResult` built for one entry of a tool-result array
(entries whose `Type` is not `"tool_result"` are skipped). -/
def toolResultBlockOf (tr : ToolResult) : Option Block :=
  if tr.type = "tool_result" then
    some { type := .toolResult, text := extractToolResultContent tr.content
           toolName := "", toolInput := none, toolID := tr.toolUseID
           isError := tr.isError == some true, rawInput := "" }
  else none

/-- The `BlockToolUse` built for a `tool_use` content block: when `Input` is
present its raw text is always kept in `RawInput`, and `ToolInput` is the
parsed map only when the unmarshal succeeds. -/
def toolUseBlockOf (cb : ContentBlock) : Block :=
  match cb.input with
  | .nil =>
    { type := .toolUse, text := "", toolName := cb.name, toolInput := none
      toolID := cb.id, isError := false, rawInput := "" }
  | .val raw parsed =>
    { type := .toolUse, text := "", toolName := cb.name, toolInput := parsed
      toolID := cb.id, isError := false, rawInput := raw }

/-- The per-content-block loop body of the assistant branch. -/
def addContentBlock (blocks : List Block) (cb : ContentBlock) : List Block :=
  if cb.type = "text" then
    if cb.text.trim = "" then blocks else blocks ++ [textBlock cb.text.trim]
  else if cb.type = "thinking" then
    if cb.thinking = "" then blocks else blocks ++ [thinkingBlock cb.thinking]
  else if cb.type = "tool_use" then
    blocks ++ [toolUseBlockOf cb]
  else blocks

/-- Closing the current turn (flushing a positive pending duration onto it,
then appending it to the output) and opening a new turn with the given user
text — the code shared by the shell-input and plain-text/slash-command
branches of `segmentTurns`. -/
def closeOpen (s : SegState) (rec : Record) (text : String) : SegState :=
  let turns' :=
    match s.current with
    | some t => s.turns ++ [if 0 < s.pending then { t with duration := s.pending } else t]
    | none => s.turns
  let pending' :=
    match s.current with
    | some _ => if 0 < s.pending then 0 else s.pending
    | none => s.pending
  let n := s.turnNum + 1
  { turns := turns'
    current := some
      { number := n, userText := text, blocks := [], timestamp := rec.timestamp
        duration := 0, model := "", cwd := rec.cwd, gitBranch := rec.gitBranch
        slug := rec.slug }
    turnNum := n
    pending := pending'
    sess :=
      { s.sess with
        cwd := if s.sess.cwd = "" then rec.cwd else s.sess.cwd
        gitBranch := if s.sess.gitBranch = "" then rec.gitBranch else s.sess.gitBranch } }

/-- The `case parser.RecordTypeUser` branch after the meta check and a
successful `ParseUserMessage`, in the code's test order: bash output,
bash input, tool-result array, slash command / plain text. -/
def handleUser (s : SegState) (rec : Record) (msg : UserMessage) : SegState :=
  if isBashOutput (userTextOf msg) then
    match s.current with
    | none => s
    | some t =>
      let so := parseBashOutput (userTextOf msg)
      let output := if so.2 ≠ "" then (if so.1 ≠ "" then so.1 ++ "\n" ++ so.2 else so.2) else so.1
      if output = "" then s
      else { s with current := some { t with blocks := t.blocks ++ [textBlock output] } }
  else if isBashInput (userTextOf msg) then
    closeOpen s rec ("!" ++ parseBashInput (userTextOf msg))
  else
    match msg.content with
    | .arr results =>
      match s.current, results with
      | some t, some rs =>
        { s with current := some { t with blocks := t.blocks ++ rs.filterMap toolResultBlockOf } }
      | _, _ => s
    | _ =>
      let text :=
        match commandNameOf (userTextOf msg) with
        | some c => c
        | none => userTextOf msg
      if text = "" then s else closeOpen s rec text

/-- The `case parser.RecordTypeAssistant` branch once a turn is open and
`ParseAssistantMessage` succeeded. -/
def handleAssistant (s : SegState) (t : Turn) (am : AssistantMessage) : SegState :=
  let model' := if t.model = "" ∧ am.model ≠ "" then am.model else t.model
  let sessModel' :=
    if t.model = "" ∧ am.model ≠ "" then
      (if s.sess.model = "" then am.model else s.sess.model)
    else s.sess.model
  { s with
    current := some { t with model := model', blocks := am.content.foldl addContentBlock t.blocks }
    sess := { s.sess with model := sessModel' } }

/-- One iteration of the `segmentTurns` loop. -/
def segStep (s : SegState) (rec : Record) : SegState :=
  let s := { s with sess := metaUpd s.sess rec }
  if rec.type = "user" then
    if rec.isMeta then s
    else
      match rec.userMsg with
      | none => s
      | some msg => handleUser s rec msg
  else if rec.type = "assistant" then
    match s.current with
    | none => s
    | some t =>
      match rec.asstMsg with
      | none => s
      | some am => handleAssistant s t am
  else if rec.type = "system" then
    if rec.subtype = "turn_duration" ∧ 0 < rec.durationMs then
      { s with pending := rec.durationMs }
    else s
  else s

/-- The finalization after the loop: a still-open turn is closed with any
positive pending duration. -/
def finalizeTurns (s : SegState) : List Turn :=
  match s.current with
  | none => s.turns
  | some t => s.turns ++ [if 0 < s.pending then { t with duration := s.pending } else t]

/-- `func segmentTurns(records []parser.Record, sess *Session) []Turn`. -/
def segmentTurns (records : List Record) : List Turn :=
  finalizeTurns (records.foldl segStep initSeg)

/-- A user record that takes one of the turn-closing branches of
`segmentTurns` (rule 3 shell input, or rule 5/6 slash command / non-empty
plain text): user type, not meta, message parses, not bash output, and
either bash input or a non-array content whose final text is non-empty. -/
def closingUser (rec : Record) : Bool :=
  rec.type == "user" && !rec.isMeta &&
    (match rec.userMsg with
     | none => false
     | some msg =>
       !isBashOutput (userTextOf msg) &&
         (isBashInput (userTextOf msg) ||
           (match msg.content with
            | .arr _ => false
            | _ =>
              (match commandNameOf (userTextOf msg) with
               | some c => c
               | none => userTextOf msg) != "")))

/-! ## Concrete inputs used by counterexamples and witnesses -/

/-- A plain-text user record opening a turn with text `"hi"`. -/
def c1user : Record :=
  { baseRec with type := "user", timestamp := "t1"
                 userMsg := some { role := "user", content := .str "hi" } }

/-- A system record that carries a duration value (5000 ms) but whose
subtype is not `"turn_duration"`. -/
def c1note : Record :=
  { baseRec with type := "system", subtype := "compact_boundary", durationMs := 5000 }

/-- An open turn for exercising the pending-duration transitions. -/
def c1turn : Turn :=
  { number := 1, userText := "hi", blocks := [], timestamp := "t1", duration := 0
    model := "", cwd := "", gitBranch := "", slug := "" }

/-- A segmenter state with `c1turn` open and a pending duration of 5000 ms. -/
def c1state : SegState :=
  { turns := [], current := some c1turn, turnNum := 1, pending := 5000, sess := initSeg.sess }

/-- A qualifying `turn_duration` system note of 7 ms. -/
def c1tdnote : Record :=
  { baseRec with type := "system", subtype := "turn_duration", durationMs := 7 }

/-- A plain-text user record (`"bye"`), a closing transition. -/
def c1close : Record :=
  { baseRec with type := "user", userMsg := some { role := "user", content := .str "bye" } }

/-- A plain-text user record opening a turn with text `"hi"`. -/
def c2user : Record :=
  { baseRec with type := "user", userMsg := some { role := "user", content := .str "hi" } }

/-- A tool result whose content raw message parses neither as a JSON string
nor as a `{type, text}` array (e.g. the JSON number `42`). -/
def c2tr : ToolResult :=
  { type := "tool_result", toolUseID := "T1", content := .other "42", isError := none }

/-- A user record carrying the tool-result array `[c2tr]`. -/
def c2toolres : Record :=
  { baseRec with type := "user", userMsg := some { role := "user", content := .arr (some [c2tr]) } }

/-- A `tool_use` content block whose input raw message fails to unmarshal
into a map (e.g. a non-object JSON value whose raw text is `oops`). -/
def c2cb : ContentBlock :=
  { type := "tool_use", text := "", thinking := "", id := "TU1", name := "Bash"
    input := .val "oops" none }

/-- An assistant record with the single bad-input `tool_use` block. -/
def c2asst : Record :=
  { baseRec with type := "assistant", asstMsg := some { model := "m1", content := [c2cb] } }

/-- The counterexample stream for the payload-parse-failure claim. -/
def c2ex : List Record := [c2user, c2toolres, c2asst]

/-- A segmenter state with a turn open, for the parse-failure witnesses. -/
def c2state : SegState :=
  { turns := [], current := some c1turn, turnNum := 1, pending := 0, sess := initSeg.sess }

/-- A user record whose message fails `ParseUserMessage`. -/
def c2badUser : Record := { baseRec with type := "user", sessionID := "S1", userMsg := none }

/-- An assistant record whose message fails `ParseAssistantMessage`. -/
def c2badAsst : Record := { baseRec with type := "assistant", asstMsg := none }

/-- A user record whose array content fails `ParseToolResults`. -/
def c2badArr : Record :=
  { baseRec with type := "user", userMsg := some { role := "user", content := .arr none } }

/-- A segmenter state for the pending-duration-discipline witness. -/
def c9state : SegState :=
  { turns := [], current := some c1turn, turnNum := 1, pending := 3, sess := initSeg.sess }

/-- A qualifying `turn_duration` note of 9 ms. -/
def c9note : Record :=
  { baseRec with type := "system", subtype := "turn_duration", durationMs := 9 }

/-- A plain-text user record (`"next"`), a closing transition. -/
def c9close : Record :=
  { baseRec with type := "user", userMsg := some { role := "user", content := .str "next" } }

/-- A progress record (sidechain-flagged) carrying the earliest timestamp. -/
def q10prog : QLine :=
  some { type := "progress", slug := "", timestamp := "2025-01-01T00:00:00Z", subtype := ""
         isMeta := false, isSidechain := true, message := none }

/-- The only counted user message, in the middle of the time range. -/
def q10user : QLine :=
  some { type := "user", slug := "", timestamp := "2025-01-01T01:00:00Z", subtype := ""
         isMeta := false, isSidechain := false
         message := some { role := "user", model := "", content := .str "\"hello\"" } }

/-- A meta-flagged user message (never counted, still timestamped). -/
def q10meta : QLine :=
  some { type := "user", slug := "", timestamp := "2025-01-01T02:00:00Z", subtype := ""
         isMeta := true, isSidechain := false
         message := some { role := "user", model := "", content := .str "\"cmd\"" } }

/-- A file-history-snapshot record carrying the latest timestamp. -/
def q10snap : QLine :=
  some { type := "file-history-snapshot", slug := "", timestamp := "2025-01-01T03:00:00Z"
         subtype := "", isMeta := false, isSidechain := false, message := none }

/-- A stream whose time range is strictly wider than the span of its counted
messages. -/
def c10ex : List QLine := [q10prog, q10user, q10meta, q10snap]

/-- A record the decoder keeps: not progress, not a file-history snapshot,
not sidechain-flagged. -/
def keptRec (r : Record) : Bool :=
  r.type != "progress" && r.type != "file-history-snapshot" && !r.isSidechain

/-- The turn numbers held by a segmenter state, closed turns first, then the
open turn if any. -/
def segNums (s : SegState) : List Nat :=
  s.turns.map Turn.number ++ (match s.current with | none => [] | some t => [t.number])

/-! ## Helper lemmas: diff engine -/

theorem newSide_append (a b : List diffOp) : newSide (a ++ b) = newSide a ++ newSide b := by
  simp [newSide, List.filter_append]

theorem oldSide_append (a b : List diffOp) : oldSide (a ++ b) = oldSide a ++ oldSide b := by
  simp [oldSide, List.filter_append]

theorem newSide_plus (t : String) : newSide [⟨'+', t⟩] = [t] := by simp [newSide]

theorem newSide_minus (t : String) : newSide [⟨'-', t⟩] = [] := by simp [newSide]

theorem newSide_ctx (t : String) : newSide [⟨' ', t⟩] = [t] := by simp [newSide]

theorem oldSide_plus (t : String) : oldSide [⟨'+', t⟩] = [] := by simp [oldSide]

theorem oldSide_minus (t : String) : oldSide [⟨'-', t⟩] = [t] := by simp [oldSide]

theorem oldSide_ctx (t : String) : oldSide [⟨' ', t⟩] = [t] := by simp [oldSide]

theorem take_succ_getD {α : Type} (l : List α) (j : Nat) (h : j < l.length) (d : α) :
    l.take (j+1) = l.take j ++ [l.getD j d] := by
  rw [List.take_succ]
  simp [List.getD, List.getElem?_eq_getElem h]

/-- Both reconstruction identities of the backtracking loop: over any
in-range position of the table, the Added/Context lines are exactly the
consumed prefix of the new lines and the Removed/Context lines exactly the
consumed prefix of the old lines. -/
theorem backtrack_sides (oldL newL : List String) :
    ∀ (i j : Nat), i ≤ oldL.length → j ≤ newL.length →
      newSide (backtrack oldL newL i j) = newL.take j ∧
      oldSide (backtrack oldL newL i j) = oldL.take i
  | 0, 0, _, _ => by simp [backtrack, newSide, oldSide]
  | 0, j' + 1, hi, hj => by
    have ih := backtrack_sides oldL newL 0 j' hi (by omega)
    rw [show backtrack oldL newL 0 (j'+1)
          = backtrack oldL newL 0 j' ++ [⟨'+', newL.getD j' ""⟩] from by rw [backtrack]]
    rw [newSide_append, oldSide_append, newSide_plus, oldSide_plus, ih.1, ih.2,
      take_succ_getD newL j' (by omega) ""]
    simp
  | i' + 1, 0, hi, hj => by
    have ih := backtrack_sides oldL newL i' 0 (by omega) hj
    rw [show backtrack oldL newL (i'+1) 0
          = backtrack oldL newL i' 0 ++ [⟨'-', oldL.getD i' ""⟩] from by rw [backtrack]]
    rw [newSide_append, oldSide_append, newSide_minus, oldSide_minus, ih.1, ih.2,
      take_succ_getD oldL i' (by omega) ""]
    simp
  | i' + 1, j' + 1, hi, hj => by
    rw [show backtrack oldL newL (i'+1) (j'+1) = _ from by rw [backtrack]]
    by_cases heq : oldL.getD i' "" = newL.getD j' ""
    · have ih := backtrack_sides oldL newL i' j' (by omega) (by omega)
      rw [if_pos heq, newSide_append, oldSide_append, newSide_ctx, oldSide_ctx, ih.1, ih.2,
        take_succ_getD newL j' (by omega) "", take_succ_getD oldL i' (by omega) "", heq]
      simp
    · rw [if_neg heq]
      by_cases hge : lcsTable oldL newL (i' + 1) j' ≥ lcsTable oldL newL i' (j' + 1)
      · have ih := backtrack_sides oldL newL (i'+1) j' hi (by omega)
        rw [if_pos hge, newSide_append, oldSide_append, newSide_plus, oldSide_plus, ih.1, ih.2,
          take_succ_getD newL j' (by omega) ""]
        simp
      · have ih := backtrack_sides oldL newL i' (j'+1) (by omega) hj
        rw [if_neg hge, newSide_append, oldSide_append, newSide_minus, oldSide_minus, ih.1, ih.2,
          take_succ_getD oldL i' (by omega) ""]
        simp
termination_by i j => i + j

/-- On identical line lists, the backtracking loop follows the diagonal and
emits one Context op per consumed line. -/
theorem backtrack_diag (l : List String) :
    ∀ i, i ≤ l.length → backtrack l l i i = (l.take i).map (fun t => ⟨' ', t⟩)
  | 0, _ => by simp [backtrack]
  | i + 1, h => by
    rw [show backtrack l l (i+1) (i+1) = _ from by rw [backtrack]]
    rw [if_pos rfl, backtrack_diag l i (by omega), take_succ_getD l i (by omega) ""]
    simp

/-! ## Claim theorems: diff engine -/

/-- C4 (confirmed).  In the diff engine's LCS backtracking, for every
sub-problem where the best scores along the consume-old path
(`dp[i-1][j]`, here `lcsTable oldL newL i (j+1)`) and the consume-new path
(`dp[i][j-1]`, here `lcsTable oldL newL (i+1) j`) are equal and the current
lines differ, the step consumes from the new sequence and classifies the
line as Added (`'+'`), not Removed. -/
theorem c4_tie_prefers_added (oldL newL : List String) (i j : Nat)
    (_hi : i < oldL.length) (_hj : j < newL.length)
    (hne : oldL.getD i "" ≠ newL.getD j "")
    (htie : lcsTable oldL newL (i+1) j = lcsTable oldL newL i (j+1)) :
    backtrack oldL newL (i+1) (j+1)
      = backtrack oldL newL (i+1) j ++ [⟨'+', newL.getD j ""⟩] := by
  rw [show backtrack oldL newL (i+1) (j+1) = _ from by rw [backtrack]]
  rw [if_neg hne, if_pos (le_of_eq htie.symm)]

/-- Witness for C4 at the concrete tie `old = ["a"]`, `new = ["b"]`:
the scores tie at the corner sub-problem and the step emits Added `"b"`. -/
theorem c4_tie_prefers_added_witness :
    (["a"].getD 0 "" ≠ ["b"].getD 0 "")
    ∧ lcsTable ["a"] ["b"] 1 0 = lcsTable ["a"] ["b"] 0 1
    ∧ backtrack ["a"] ["b"] 1 1 = backtrack ["a"] ["b"] 1 0 ++ [⟨'+', ["b"].getD 0 ""⟩] :=
  ⟨by decide, by simp [lcsTable],
    c4_tie_prefers_added ["a"] ["b"] 0 0 (by decide) (by decide) (by decide)
      (by simp [lcsTable])⟩

/-- C5 (confirmed).  For every pair of input texts, the Added and Context
lines of `computeDiff old new` in output order are exactly the line
sequence of the new text, and the Removed and Context lines exactly the
line sequence of the old text. -/
theorem c5_diff_reconstruction (oldStr newStr : String) :
    newSide (computeDiff oldStr newStr) = splitLines newStr ∧
    oldSide (computeDiff oldStr newStr) = splitLines oldStr := by
  have h := backtrack_sides (splitLines oldStr) (splitLines newStr)
    (splitLines oldStr).length (splitLines newStr).length le_rfl le_rfl
  simpa [computeDiff] using h

/-- C8 (confirmed).  `computeDiff x x` is one Context op per line of `x`
(hence zero Added and zero Removed); `computeDiff "" "" = []`;
`computeDiff "a" ""` is exactly one Removed `"a"`; `computeDiff "" "a"`
is exactly one Added `"a"`. -/
theorem c8_diff_identity_and_units :
    (∀ x : String, computeDiff x x = (splitLines x).map (fun t => ⟨' ', t⟩))
    ∧ computeDiff "" "" = []
    ∧ computeDiff "a" "" = [⟨'-', "a"⟩]
    ∧ computeDiff "" "a" = [⟨'+', "a"⟩] := by
  refine ⟨fun x => ?_, ?_, ?_, ?_⟩
  · have h := backtrack_diag (splitLines x) (splitLines x).length le_rfl
    simpa [computeDiff] using h
  · simp [computeDiff, splitLines, splitNl, backtrack]
  · have h1 : splitLines "a" = ["a"] := by simp [splitLines, splitNl]
    have h0 : splitLines "" = [] := by simp [splitLines]
    simp [computeDiff, h1, h0, backtrack]
  · have h1 : splitLines "a" = ["a"] := by simp [splitLines, splitNl]
    have h0 : splitLines "" = [] := by simp [splitLines]
    simp [computeDiff, h1, h0, backtrack]

/-! ## Claim theorem: line decoder -/

/-- C7 (confirmed).  For every input stream, the decoder's output is a
sublist of the decoded lines in input order (so input line order is
preserved), its length never exceeds the input line count, and it contains
no progress records, no file-history-snapshot records, and no
sidechain-flagged records. -/
theorem c7_decoder_order_and_filter (ls : List Line) :
    List.Sublist (Parse ls) (ls.filterMap decodedOf)
    ∧ (Parse ls).length ≤ ls.length
    ∧ (Parse ls).all keptRec = true := by
  induction ls with
  | nil => simp [Parse]
  | cons l ls ih =>
    cases l with
    | empty =>
      refine ⟨by simpa [Parse, decodedOf] using ih.1, ?_, by simpa [Parse] using ih.2.2⟩
      have := ih.2.1
      simp [Parse]
      omega
    | malformed =>
      refine ⟨by simpa [Parse, decodedOf] using ih.1, ?_, by simpa [Parse] using ih.2.2⟩
      have := ih.2.1
      simp [Parse]
      omega
    | ok r =>
      by_cases h1 : r.type = "progress" ∨ r.type = "file-history-snapshot"
      · refine ⟨?_, ?_, ?_⟩
        · rw [show Parse (Line.ok r :: ls) = Parse ls from by simp [Parse, h1]]
          simpa [decodedOf] using ih.1.cons r
        · rw [show Parse (Line.ok r :: ls) = Parse ls from by simp [Parse, h1]]
          have := ih.2.1
          simp
          omega
        · rw [show Parse (Line.ok r :: ls) = Parse ls from by simp [Parse, h1]]
          exact ih.2.2
      · by_cases h2 : r.isSidechain
        · refine ⟨?_, ?_, ?_⟩
          · rw [show Parse (Line.ok r :: ls) = Parse ls from by simp [Parse, h1, h2]]
            simpa [decodedOf] using ih.1.cons r
          · rw [show Parse (Line.ok r :: ls) = Parse ls from by simp [Parse, h1, h2]]
            have := ih.2.1
            simp
            omega
          · rw [show Parse (Line.ok r :: ls) = Parse ls from by simp [Parse, h1, h2]]
            exact ih.2.2
        · have hstep : Parse (Line.ok r :: ls) = r :: Parse ls := by simp [Parse, h1, h2]
          refine ⟨?_, ?_, ?_⟩
          · rw [hstep]
            simpa [decodedOf] using ih.1.cons₂ r
          · rw [hstep]
            have := ih.2.1
            simp
            omega
          · rw [hstep, List.all_cons, ih.2.2]
            push_neg at h1
            simp [keptRec, h1.1, h1.2, h2]

/-! ## Helper lemmas: metadata scanner -/

theorem quickTs_turnCount (st : QuickState) (rec : QRec) :
    (quickTs st rec).turnCount = st.turnCount := by
  simp only [quickTs]
  split <;> rfl

theorem quickSlug_turnCount (st : QuickState) (rec : QRec) :
    (quickSlug st rec).turnCount = st.turnCount := by
  simp only [quickSlug]
  split <;> rfl

theorem quickModel_turnCount (st : QuickState) (rec : QRec) :
    (quickModel st rec).turnCount = st.turnCount := by
  simp only [quickModel]
  split
  · split
    · split <;> rfl
    · rfl
  · rfl

/-- The turn-counting branch increments the count exactly on the claim's
condition, and touches nothing else about the count. -/
theorem quickCount_turnCount (st : QuickState) (rec : QRec) :
    (quickCount st rec).turnCount
      = st.turnCount + (if countedAsTurn (some rec) = true then 1 else 0) := by
  obtain ⟨ty, slg, ts, sub, meta, side, msg⟩ := rec
  simp only [quickCount, countedAsTurn]
  by_cases hty : ty = "user"
  · rw [if_pos hty]
    cases msg with
    | none => simp [hty]
    | some m =>
      obtain ⟨role, mdl, content⟩ := m
      by_cases hrole : role = "user"
      · by_cases hmeta : meta
        · simp [hty, hrole, hmeta]
        · cases content with
          | str raw =>
            by_cases hmark : (containsSeq stdoutMarker raw.toList
                || containsSeq stderrMarker raw.toList) = true
            · simp only [String.toList, Bool.or_eq_true] at hmark
              rcases hmark with h | h <;> simp [hty, hrole, hmeta, h]
            · simp only [String.toList, Bool.or_eq_true] at hmark
              push_neg at hmark
              simp [hty, hrole, hmeta, hmark.1, hmark.2]
          | arr types =>
            match types with
            | some (t :: _) =>
              by_cases htr : t = "tool_result"
              · simp [hty, hrole, hmeta, htr]
              · simp [hty, hrole, hmeta, htr]
            | some [] => simp [hty, hrole, hmeta]
            | none => simp [hty, hrole, hmeta]
          | absent => simp [hty, hrole, hmeta]
          | other => simp [hty, hrole, hmeta]
      · simp [hty, hrole]
  · rw [if_neg hty]
    simp [hty]

theorem quickTs_first (st : QuickState) (rec : QRec) :
    (quickTs st rec).firstTime =
      if rec.timestamp = "" then st.firstTime
      else if st.firstTime = "" then rec.timestamp else st.firstTime := by
  simp only [quickTs]
  by_cases h : rec.timestamp = "" <;> simp [h]

theorem quickTs_last (st : QuickState) (rec : QRec) :
    (quickTs st rec).lastTime =
      if rec.timestamp = "" then st.lastTime else rec.timestamp := by
  simp only [quickTs]
  by_cases h : rec.timestamp = "" <;> simp [h]

theorem quickSlug_times (st : QuickState) (rec : QRec) :
    (quickSlug st rec).firstTime = st.firstTime ∧ (quickSlug st rec).lastTime = st.lastTime := by
  simp only [quickSlug]
  split <;> exact ⟨rfl, rfl⟩

theorem quickCount_times (st : QuickState) (rec : QRec) :
    (quickCount st rec).firstTime = st.firstTime ∧ (quickCount st rec).lastTime = st.lastTime := by
  obtain ⟨ty, slg, ts, sub, meta, side, msg⟩ := rec
  simp only [quickCount]
  split
  · cases msg with
    | none => exact ⟨rfl, rfl⟩
    | some m =>
      obtain ⟨role, mdl, content⟩ := m
      by_cases hrole : role = "user"
      · by_cases hmeta : meta
        · simp [hrole, hmeta]
        · cases content with
          | str raw =>
            by_cases hmark : (containsSeq stdoutMarker raw.toList
                || containsSeq stderrMarker raw.toList) = true
            · simp [hrole, hmeta, String.toList] at hmark ⊢
              rcases hmark with h | h <;> simp [h]
            · simp [hrole, hmeta, String.toList] at hmark ⊢
              simp [hmark.1, hmark.2]
          | arr types =>
            match types with
            | some (t :: _) =>
              by_cases htr : t = "tool_result"
              · simp [hrole, hmeta, htr]
              · simp [hrole, hmeta, htr]
            | some [] => simp [hrole, hmeta]
            | none => simp [hrole, hmeta]
          | absent => simp [hrole, hmeta]
          | other => simp [hrole, hmeta]
      · simp [hrole]
  · exact ⟨rfl, rfl⟩

theorem quickModel_times (st : QuickState) (rec : QRec) :
    (quickModel st rec).firstTime = st.firstTime ∧ (quickModel st rec).lastTime = st.lastTime := by
  simp only [quickModel]
  split
  · cases rec.message with
    | none => exact ⟨rfl, rfl⟩
    | some m => dsimp only; split <;> exact ⟨rfl, rfl⟩
  · exact ⟨rfl, rfl⟩

theorem quickStep_first (st : QuickState) (l : QLine) :
    (quickStep st l).firstTime =
      match tsOf l with
      | none => st.firstTime
      | some t => if st.firstTime = "" then t else st.firstTime := by
  cases l with
  | none => simp [quickStep, tsOf]
  | some rec =>
    simp only [quickStep, tsOf, (quickModel_times _ _).1, (quickCount_times _ _).1,
      (quickSlug_times _ _).1, quickTs_first]
    by_cases h : rec.timestamp = "" <;> simp [h]

theorem quickStep_last (st : QuickState) (l : QLine) :
    (quickStep st l).lastTime =
      match tsOf l with
      | none => st.lastTime
      | some t => t := by
  cases l with
  | none => simp [quickStep, tsOf]
  | some rec =>
    simp only [quickStep, tsOf, (quickModel_times _ _).2, (quickCount_times _ _).2,
      (quickSlug_times _ _).2, quickTs_last]
    by_cases h : rec.timestamp = "" <;> simp [h]

theorem tsOf_ne_empty {l : QLine} {t : String} (h : tsOf l = some t) : t ≠ "" := by
  cases l with
  | none => simp [tsOf] at h
  | some rec =>
    simp only [tsOf] at h
    split at h
    · exact absurd h (by simp)
    · rename_i hne
      cases h
      exact hne

theorem getLast?_cons_getD {α : Type} (a : α) (l : List α) (d : α) :
    ((a :: l).getLast?).getD d = (l.getLast?).getD a := by
  cases l with
  | nil => simp
  | cons b m =>
    rw [List.getLast?_cons_cons]
    cases h : (b :: m).getLast? with
    | none => simp [List.getLast?_eq_none_iff] at h
    | some x => simp

theorem foldl_quickStep_first (lines : List QLine) :
    ∀ st : QuickState,
      (lines.foldl quickStep st).firstTime =
        if st.firstTime = "" then ((lines.filterMap tsOf).head?).getD "" else st.firstTime := by
  induction lines with
  | nil =>
    intro st
    by_cases h : st.firstTime = "" <;> simp [h]
  | cons l rest ih =>
    intro st
    rw [List.foldl_cons, ih]
    cases hts : tsOf l with
    | none =>
      rw [quickStep_first st l, hts]
      simp [List.filterMap_cons, hts]
    | some t =>
      have hne := tsOf_ne_empty hts
      rw [quickStep_first st l, hts]
      by_cases h : st.firstTime = ""
      · simp [h, hne, List.filterMap_cons, hts]
      · simp [h, List.filterMap_cons, hts]

theorem foldl_quickStep_last (lines : List QLine) :
    ∀ st : QuickState,
      (lines.foldl quickStep st).lastTime = ((lines.filterMap tsOf).getLast?).getD st.lastTime := by
  induction lines with
  | nil => intro st; simp
  | cons l rest ih =>
    intro st
    rw [List.foldl_cons, ih]
    cases hts : tsOf l with
    | none =>
      rw [quickStep_last st l, hts]
      simp [List.filterMap_cons, hts]
    | some t =>
      rw [quickStep_last st l, hts]
      simp only [List.filterMap_cons, hts]
      rw [getLast?_cons_getD]

/-! ## Claim theorems: metadata scanner -/

/-- C3 (confirmed).  Each `QuickScan` step increments
`approximateTurnCount` exactly when the line is a user-authored message
(user record, user role), not meta-flagged, whose content is a plain string
free of the embedded `bash-stdout`/`bash-stderr` markers or a parseable
non-empty array whose first item is not a tool result — and no other kind
of record increments it. -/
theorem c3_quickscan_count (st : QuickState) (l : QLine) :
    (quickStep st l).turnCount = st.turnCount + (if countedAsTurn l = true then 1 else 0) := by
  cases l with
  | none => simp [quickStep, countedAsTurn]
  | some rec =>
    simp only [quickStep]
    rw [quickModel_turnCount, quickCount_turnCount, quickSlug_turnCount, quickTs_turnCount]

/-- C10 (confirmed).  `QuickScan` derives `firstTimestamp` and
`lastTimestamp` from every line that parses and has a non-empty timestamp
— the first and last such timestamps in stream order, with no filtering on
record type, meta flag or sidechain flag — so on the concrete stream
`c10ex` a sidechain progress record and a file-history-snapshot record
widen the reported range around the single counted user message. -/
theorem c10_quickscan_timerange :
    (∀ lines : List QLine,
      (QuickScan lines).firstTime = ((lines.filterMap tsOf).head?).getD ""
      ∧ (QuickScan lines).lastTime = ((lines.filterMap tsOf).getLast?).getD "")
    ∧ QuickScan c10ex =
        { slug := "", model := "", firstTime := "2025-01-01T00:00:00Z"
          lastTime := "2025-01-01T03:00:00Z", turnCount := 1 }
    ∧ countedAsTurn q10user = true
    ∧ countedAsTurn q10prog = false ∧ countedAsTurn q10meta = false
    ∧ countedAsTurn q10snap = false := by
  refine ⟨fun lines => ⟨?_, ?_⟩, by decide, by decide, by decide, by decide, by decide⟩
  · rw [QuickScan, foldl_quickStep_first]
    simp
  · rw [QuickScan, foldl_quickStep_last]

/-! ## Helper lemmas: turn segmenter -/

theorem range1_concat (n : Nat) : List.range' 1 (n+1) = List.range' 1 n ++ [n+1] := by
  rw [List.range'_concat]
  simp [Nat.add_comm]

theorem closeOpen_nums (s : SegState) (rec : Record) (x : String)
    (h : segNums s = List.range' 1 s.turnNum) :
    segNums (closeOpen s rec x) = List.range' 1 (closeOpen s rec x).turnNum := by
  cases hc : s.current with
  | none =>
    simp only [segNums, hc, List.append_nil] at h
    simp only [closeOpen, hc, segNums]
    rw [range1_concat, h]
  | some t =>
    simp only [segNums, hc] at h
    simp only [closeOpen, hc, segNums]
    rw [range1_concat, ← h]
    split <;> simp

theorem segNums_ite (C : Prop) [Decidable C] (a b : SegState)
    (ha : segNums a = List.range' 1 a.turnNum)
    (hb : segNums b = List.range' 1 b.turnNum) :
    segNums (if C then a else b) = List.range' 1 (if C then a else b).turnNum := by
  by_cases h : C
  · rw [if_pos h]; exact ha
  · rw [if_neg h]; exact hb

theorem handleUser_nums (s : SegState) (rec : Record) (msg : UserMessage)
    (h : segNums s = List.range' 1 s.turnNum) :
    segNums (handleUser s rec msg) = List.range' 1 (handleUser s rec msg).turnNum := by
  simp only [handleUser]
  by_cases hbo : isBashOutput (userTextOf msg) = true
  · rw [if_pos hbo]
    cases hc : s.current with
    | none => exact h
    | some t =>
      dsimp only
      refine segNums_ite _ _ _ h ?_
      simp only [segNums, hc] at h
      simpa only [segNums] using h
  · rw [if_neg hbo]
    by_cases hbi : isBashInput (userTextOf msg) = true
    · rw [if_pos hbi]
      exact closeOpen_nums s rec _ h
    · rw [if_neg hbi]
      cases hcon : msg.content with
      | arr results =>
        dsimp only
        cases hc : s.current with
        | none => cases results <;> exact h
        | some t =>
          cases results with
          | none => exact h
          | some rs =>
            dsimp only
            simp only [segNums, hc] at h
            simpa only [segNums] using h
      | str sx =>
        dsimp only
        exact segNums_ite _ _ _ h (closeOpen_nums s rec _ h)
      | other =>
        dsimp only
        exact segNums_ite _ _ _ h (closeOpen_nums s rec _ h)

theorem handleAssistant_nums (s : SegState) (t : Turn) (am : AssistantMessage)
    (hc : s.current = some t)
    (h : segNums s = List.range' 1 s.turnNum) :
    segNums (handleAssistant s t am) = List.range' 1 (handleAssistant s t am).turnNum := by
  simp only [handleAssistant, segNums, hc] at h ⊢
  exact h

theorem metaUpd_nums (s : SegState) (rec : Record)
    (h : segNums s = List.range' 1 s.turnNum) :
    segNums { s with sess := metaUpd s.sess rec } = List.range' 1 s.turnNum := by
  simpa [segNums] using h

theorem segStep_nums (s : SegState) (rec : Record)
    (h : segNums s = List.range' 1 s.turnNum) :
    segNums (segStep s rec) = List.range' 1 (segStep s rec).turnNum := by
  have hmeta := metaUpd_nums s rec h
  simp only [segStep]
  by_cases hty : rec.type = "user"
  · rw [if_pos hty]
    by_cases hm : rec.isMeta
    · rw [if_pos hm]
      exact hmeta
    · rw [if_neg hm]
      cases hu : rec.userMsg with
      | none => dsimp only; exact hmeta
      | some msg =>
        dsimp only
        exact handleUser_nums _ rec msg hmeta
  · rw [if_neg hty]
    by_cases hta : rec.type = "assistant"
    · rw [if_pos hta]
      cases hc : s.current with
      | none =>
        rw [hc] at hmeta
        dsimp only
        exact hmeta
      | some t =>
        rw [hc] at hmeta
        dsimp only
        cases ha : rec.asstMsg with
        | none => exact hmeta
        | some am =>
          dsimp only
          exact handleAssistant_nums _ t am rfl hmeta
    · rw [if_neg hta]
      by_cases hts : rec.type = "system"
      · rw [if_pos hts]
        by_cases hcond : rec.subtype = "turn_duration" ∧ 0 < rec.durationMs
        · rw [if_pos hcond]
          simpa [segNums] using hmeta
        · rw [if_neg hcond]
          exact hmeta
      · rw [if_neg hts]
        exact hmeta

theorem segNums_init : segNums initSeg = List.range' 1 initSeg.turnNum := by
  simp [segNums, initSeg]

theorem foldl_segStep_nums (records : List Record) :
    ∀ s : SegState, segNums s = List.range' 1 s.turnNum →
      segNums (records.foldl segStep s) = List.range' 1 (records.foldl segStep s).turnNum := by
  induction records with
  | nil => intro s h; exact h
  | cons r rest ih =>
    intro s h
    rw [List.foldl_cons]
    exact ih _ (segStep_nums s r h)

theorem finalizeTurns_nums (s : SegState)
    (h : segNums s = List.range' 1 s.turnNum) :
    (finalizeTurns s).map Turn.number = List.range' 1 s.turnNum := by
  cases hc : s.current with
  | none =>
    simp only [finalizeTurns, hc]
    simpa [segNums, hc] using h
  | some t =>
    simp only [finalizeTurns, hc, List.map_append]
    simp only [segNums, hc] at h
    rw [← h]
    split <;> simp

theorem closeOpen_flush (s : SegState) (rec : Record) (x : String) (t : Turn)
    (hc : s.current = some t) (hp : 0 < s.pending) :
    (closeOpen s rec x).turns = s.turns ++ [{ t with duration := s.pending }]
    ∧ (closeOpen s rec x).pending = 0
    ∧ ∃ u, (closeOpen s rec x).current = some u ∧ u.duration = 0 := by
  refine ⟨by simp [closeOpen, hc, hp], by simp [closeOpen, hc, hp], ?_⟩
  refine ⟨{ number := s.turnNum + 1, userText := x, blocks := [], timestamp := rec.timestamp
            duration := 0, model := "", cwd := rec.cwd, gitBranch := rec.gitBranch
            slug := rec.slug }, ?_, rfl⟩
  simp [closeOpen, hc, hp]

theorem segStep_note (s : SegState) (rec : Record)
    (h1 : rec.type = "system") (h2 : rec.subtype = "turn_duration")
    (h3 : 0 < rec.durationMs) :
    segStep s rec = { s with pending := rec.durationMs, sess := metaUpd s.sess rec } := by
  simp [segStep, h1, h2, h3]

theorem segStep_closing (s : SegState) (rec : Record) (t : Turn)
    (hcl : closingUser rec = true) (hc : s.current = some t) (hp : 0 < s.pending) :
    (segStep s rec).turns = s.turns ++ [{ t with duration := s.pending }]
    ∧ (segStep s rec).pending = 0
    ∧ ∃ u, (segStep s rec).current = some u ∧ u.duration = 0 := by
  simp only [closingUser, Bool.and_eq_true, beq_iff_eq, Bool.not_eq_true'] at hcl
  obtain ⟨⟨hty, hm⟩, hrest⟩ := hcl
  cases hu : rec.userMsg with
  | none => rw [hu] at hrest; simp at hrest
  | some msg =>
    rw [hu] at hrest
    simp only [Bool.and_eq_true, Bool.not_eq_true'] at hrest
    obtain ⟨hbo, hor⟩ := hrest
    have hsm : ({ s with sess := metaUpd s.sess rec } : SegState).current = some t := hc
    have hsp : 0 < ({ s with sess := metaUpd s.sess rec } : SegState).pending := hp
    simp only [segStep, if_pos hty, hm, Bool.false_eq_true, if_false, hu]
    simp only [handleUser, hbo, Bool.false_eq_true, if_false]
    rcases Bool.or_eq_true _ _ |>.mp hor with hbi | hcontent
    · rw [if_pos hbi]
      exact closeOpen_flush _ rec _ t hsm hsp
    · by_cases hbi : isBashInput (userTextOf msg) = true
      · rw [if_pos hbi]
        exact closeOpen_flush _ rec _ t hsm hsp
      · rw [if_neg hbi]
        cases hcon : msg.content with
        | arr results => rw [hcon] at hcontent; simp at hcontent
        | str sx =>
          rw [hcon] at hcontent
          simp only [bne_iff_ne, ne_eq] at hcontent
          dsimp only
          rw [if_neg hcontent]
          exact closeOpen_flush _ rec _ t hsm hsp
        | other =>
          rw [hcon] at hcontent
          simp only [bne_iff_ne, ne_eq] at hcontent
          dsimp only
          rw [if_neg hcontent]
          exact closeOpen_flush _ rec _ t hsm hsp

theorem finalize_flush (s : SegState) (t : Turn)
    (hc : s.current = some t) (hp : 0 < s.pending) :
    finalizeTurns s = s.turns ++ [{ t with duration := s.pending }] := by
  simp only [finalizeTurns, hc, if_pos hp]

theorem segStep_system (s : SegState) (rec : Record) (h1 : rec.type = "system") :
    segStep s rec =
      if rec.subtype = "turn_duration" ∧ 0 < rec.durationMs then
        { s with pending := rec.durationMs, sess := metaUpd s.sess rec }
      else { s with sess := metaUpd s.sess rec } := by
  by_cases h : rec.subtype = "turn_duration" ∧ 0 < rec.durationMs
  · rw [if_pos h]
    simp [segStep, h1, h.1, h.2]
  · rw [if_neg h]
    simp [segStep, h1, h]

theorem closeOpen_pending (s : SegState) (rec : Record) (x : String) :
    (closeOpen s rec x).pending = s.pending ∨ (closeOpen s rec x).pending = 0 := by
  simp only [closeOpen]
  cases hc : s.current with
  | none => left; rfl
  | some t =>
    by_cases hp : 0 < s.pending
    · right; simp [hp]
    · left; simp [hp]

theorem pending_ite_or (C : Prop) [inst : Decidable C] (a b : SegState) (p : Nat)
    (ha : a.pending = p ∨ a.pending = 0) (hb : b.pending = p ∨ b.pending = 0) :
    (if C then a else b).pending = p ∨ (if C then a else b).pending = 0 := by
  by_cases h : C
  · rw [if_pos h]; exact ha
  · rw [if_neg h]; exact hb

theorem handleUser_pending (s : SegState) (rec : Record) (msg : UserMessage) :
    (handleUser s rec msg).pending = s.pending ∨ (handleUser s rec msg).pending = 0 := by
  simp only [handleUser]
  by_cases hbo : isBashOutput (userTextOf msg) = true
  · rw [if_pos hbo]
    cases hc : s.current with
    | none => left; rfl
    | some t =>
      dsimp only
      exact pending_ite_or _ _ _ _ (Or.inl rfl) (Or.inl rfl)
  · rw [if_neg hbo]
    by_cases hbi : isBashInput (userTextOf msg) = true
    · rw [if_pos hbi]
      exact closeOpen_pending s rec _
    · rw [if_neg hbi]
      cases hcon : msg.content with
      | arr results =>
        dsimp only
        cases hc : s.current with
        | none => cases results <;> (left; rfl)
        | some t =>
          cases results with
          | none => left; rfl
          | some rs => left; rfl
      | str sx =>
        dsimp only
        exact pending_ite_or _ _ _ _ (Or.inl rfl) (closeOpen_pending s rec _)
      | other =>
        dsimp only
        exact pending_ite_or _ _ _ _ (Or.inl rfl) (closeOpen_pending s rec _)

theorem segStep_pending_or_zero (s : SegState) (rec : Record) (h : rec.type ≠ "system") :
    (segStep s rec).pending = s.pending ∨ (segStep s rec).pending = 0 := by
  simp only [segStep]
  by_cases hty : rec.type = "user"
  · rw [if_pos hty]
    by_cases hm : rec.isMeta
    · rw [if_pos hm]; left; rfl
    · rw [if_neg hm]
      cases hu : rec.userMsg with
      | none => left; rfl
      | some msg =>
        dsimp only
        exact handleUser_pending _ rec msg
  · rw [if_neg hty]
    by_cases hta : rec.type = "assistant"
    · rw [if_pos hta]
      cases hcur : s.current with
      | none => left; rfl
      | some t =>
        dsimp only
        cases ha : rec.asstMsg with
        | none => left; rfl
        | some am => left; rfl
    · rw [if_neg hta, if_neg h]
      left; rfl

theorem segStep_userParseFail (s : SegState) (rec : Record)
    (h1 : rec.type = "user") (h2 : rec.isMeta = false) (h3 : rec.userMsg = none) :
    segStep s rec = { s with sess := metaUpd s.sess rec } := by
  simp [segStep, h1, h2, h3]

theorem segStep_asstParseFail (s : SegState) (rec : Record)
    (h1 : rec.type = "assistant") (h2 : rec.asstMsg = none) :
    segStep s rec = { s with sess := metaUpd s.sess rec } := by
  cases hcur : s.current with
  | none => simp [segStep, h1, h2, hcur]
  | some t => simp [segStep, h1, h2, hcur]

theorem segStep_toolResultsParseFail (s : SegState) (rec : Record) (role : String)
    (h1 : rec.type = "user") (h2 : rec.isMeta = false)
    (h3 : rec.userMsg = some { role := role, content := .arr none }) :
    segStep s rec = { s with sess := metaUpd s.sess rec } := by
  have hb : isBashOutput "" = false := by decide
  have hbi : isBashInput "" = false := by decide
  cases hcur : s.current with
  | none => simp [segStep, h1, h2, h3, handleUser, userTextOf, hb, hbi, hcur]
  | some t => simp [segStep, h1, h2, h3, handleUser, userTextOf, hb, hbi, hcur]

theorem addContentBlock_badInput (blocks : List Block) (cb : ContentBlock) (raw : String)
    (h1 : cb.type = "tool_use") (h2 : cb.input = .val raw none) :
    addContentBlock blocks cb = blocks ++
      [{ type := .toolUse, text := "", toolName := cb.name, toolInput := none
         toolID := cb.id, isError := false, rawInput := raw }] := by
  simp [addContentBlock, toolUseBlockOf, h1, h2]

/-! ## Claim theorems: turn segmenter -/

/-- C6 (confirmed).  For every input record list, the segmented turns'
`Number` fields are exactly `1..N` in output order (`N` the number of
turns), with no gaps and no repeats. -/
theorem c6_turn_numbers (records : List Record) :
    (segmentTurns records).map Turn.number = List.range' 1 (segmentTurns records).length := by
  have h := foldl_segStep_nums records initSeg segNums_init
  have hmap : (segmentTurns records).map Turn.number
      = List.range' 1 (records.foldl segStep initSeg).turnNum := finalizeTurns_nums _ h
  have hlen : (segmentTurns records).length = (records.foldl segStep initSeg).turnNum := by
    have h2 := congrArg List.length hmap
    simpa using h2
  rw [hmap, hlen]

/-- C1 counterexample.  The stream `[c1user, c1note]` carries a SystemNote
with a positive duration value (5000 ms, subtype `"compact_boundary"`) and
no further closing transition, yet the final turn's duration stays 0: the
segmenter ignores duration values on system notes whose subtype is not
`"turn_duration"`, so the claim as stated fails. -/
theorem c1_counterexample :
    c1note.type = "system" ∧ 0 < c1note.durationMs
    ∧ (segmentTurns [c1user, c1note]).map (fun t => (t.userText, t.duration)) = [("hi", 0)] := by
  refine ⟨rfl, by decide, by decide⟩

/-- C1 (corrected).  A system note with subtype `"turn_duration"` and
strictly positive `durationMs` stores that value as pending (changing no
turn); a closing transition taken with a turn open flushes the pending
duration onto the turn being closed — never onto the newly opened turn,
whose duration starts at 0 — and resets it; at end of stream a still-open
turn receives any positive pending duration. -/
theorem c1_amended_pending_flush (s : SegState) (rec note : Record) (t : Turn) :
    (note.type = "system" → note.subtype = "turn_duration" → 0 < note.durationMs →
      (segStep s note).pending = note.durationMs
      ∧ (segStep s note).turns = s.turns ∧ (segStep s note).current = s.current)
    ∧ (closingUser rec = true → s.current = some t → 0 < s.pending →
      (segStep s rec).turns = s.turns ++ [{ t with duration := s.pending }]
      ∧ (segStep s rec).pending = 0
      ∧ ∃ u, (segStep s rec).current = some u ∧ u.duration = 0)
    ∧ (s.current = some t → 0 < s.pending →
      finalizeTurns s = s.turns ++ [{ t with duration := s.pending }]) := by
  refine ⟨fun h1 h2 h3 => ?_, fun hcl hc hp => segStep_closing s rec t hcl hc hp,
    fun hc hp => finalize_flush s t hc hp⟩
  rw [segStep_note s note h1 h2 h3]
  exact ⟨rfl, rfl, rfl⟩

/-- Witness for the corrected C1 at a concrete open-turn state with
5000 ms pending: a `turn_duration` note of 7 ms replaces the pending value,
a closing user message flushes and resets it, and finalization flushes it
onto the still-open turn. -/
theorem c1_amended_pending_flush_witness :
    (segStep c1state c1tdnote).pending = 7
    ∧ (segStep c1state c1close).pending = 0
    ∧ finalizeTurns c1state = [{ c1turn with duration := 5000 }] := by
  refine ⟨?_, ?_, ?_⟩
  · exact ((c1_amended_pending_flush c1state c1close c1tdnote c1turn).1
      rfl rfl (by decide)).1.trans rfl
  · exact ((c1_amended_pending_flush c1state c1close c1tdnote c1turn).2.1
      (by decide) rfl (by decide)).2.1
  · have h := (c1_amended_pending_flush c1state c1close c1tdnote c1turn).2.2 rfl (by decide)
    simpa [c1state] using h

/-- C2 counterexample.  In the stream `c2ex`, the tool-result content is a
raw JSON value (`42`) that parses under neither expected shape, and the
tool-use input (raw text `oops`) fails to unmarshal — yet the resulting turn's
blocks carry the raw text `"42"` as the tool-result block's text and
`oops` as the tool-use block's `RawInput`: the payloads are not treated
as absent, so the claim as stated fails. -/
theorem c2_counterexample :
    c2tr.content = TRContent.other "42"
    ∧ c2cb.input = ToolUseInput.val "oops" none
    ∧ (segmentTurns c2ex).map (fun t => t.blocks.map (fun b => (b.text, b.rawInput)))
        = [[("42", ""), ("", "oops")]] := by
  refine ⟨rfl, rfl, by decide⟩

/-- C2 (corrected).  A user message object, assistant message object, or
tool-result array that fails to parse is skipped wholesale — the step only
extracts session metadata, leaving turns, the open turn, numbering and the
pending duration untouched, so the rest of the stream is processed from an
unchanged segmentation state.  However, a `tool_use` input that fails to
parse still contributes a ToolInvocationBlock carrying the raw input text
(with no parsed map), and a tool-result content that fails both expected
shapes contributes its raw text verbatim as the block's text. -/
theorem c2_amended_parse_failures (s : SegState) (rec : Record) (role : String)
    (blocks : List Block) (cb : ContentBlock) (raw : String) :
    (rec.type = "user" → rec.isMeta = false → rec.userMsg = none →
      segStep s rec = { s with sess := metaUpd s.sess rec })
    ∧ (rec.type = "assistant" → rec.asstMsg = none →
      segStep s rec = { s with sess := metaUpd s.sess rec })
    ∧ (rec.type = "user" → rec.isMeta = false →
      rec.userMsg = some { role := role, content := .arr none } →
      segStep s rec = { s with sess := metaUpd s.sess rec })
    ∧ (cb.type = "tool_use" → cb.input = .val raw none →
      addContentBlock blocks cb = blocks ++
        [{ type := .toolUse, text := "", toolName := cb.name, toolInput := none
           toolID := cb.id, isError := false, rawInput := raw }])
    ∧ (∀ rawc : String, extractToolResultContent (.other rawc) = rawc) :=
  ⟨segStep_userParseFail s rec, segStep_asstParseFail s rec,
    fun h1 h2 h3 => segStep_toolResultsParseFail s rec role h1 h2 h3,
    fun h1 h2 => addContentBlock_badInput blocks cb raw h1 h2,
    fun _ => rfl⟩

/-- Witness for the corrected C2 at concrete records: a user record with an
unparseable message, an assistant record with an unparseable message, and a
user record with an unparseable tool-result array each leave the turn state
untouched; a bad tool-use input still yields its raw-input block; a
non-parsing tool-result content yields its raw text. -/
theorem c2_amended_parse_failures_witness :
    segStep c2state c2badUser = { c2state with sess := metaUpd c2state.sess c2badUser }
    ∧ segStep c2state c2badAsst = { c2state with sess := metaUpd c2state.sess c2badAsst }
    ∧ segStep c2state c2badArr = { c2state with sess := metaUpd c2state.sess c2badArr }
    ∧ addContentBlock [] c2cb =
        [{ type := .toolUse, text := "", toolName := c2cb.name, toolInput := none
           toolID := c2cb.id, isError := false, rawInput := "oops" }]
    ∧ extractToolResultContent (.other "42") = "42" := by
  refine ⟨?_, ?_, ?_, ?_, ?_⟩
  · exact (c2_amended_parse_failures c2state c2badUser "user" [] c2cb "oops").1 rfl rfl rfl
  · exact (c2_amended_parse_failures c2state c2badAsst "user" [] c2cb "oops").2.1 rfl rfl
  · exact (c2_amended_parse_failures c2state c2badArr "user" [] c2cb "oops").2.2.1 rfl rfl rfl
  · exact (c2_amended_parse_failures c2state c2badArr "user" [] c2cb "oops").2.2.2.1 rfl rfl
  · exact (c2_amended_parse_failures c2state c2badArr "user" [] c2cb "oops").2.2.2.2 "42"

/-- C9 (confirmed).  Every system record's effect is exactly: set the
pending duration to `durationMs` when the subtype is `"turn_duration"` and
the value is strictly positive, otherwise change nothing but session
metadata (so a later qualifying note overwrites a still-pending one).
Non-system records either leave the pending value unchanged or reset it to
zero, and a closing transition taken with a turn open and a positive
pending value resets it to zero — so each note's value is flushed onto at
most one turn. -/
theorem c9_pending_discipline (s : SegState) (rec : Record) (t : Turn) :
    (rec.type = "system" →
      segStep s rec =
        if rec.subtype = "turn_duration" ∧ 0 < rec.durationMs then
          { s with pending := rec.durationMs, sess := metaUpd s.sess rec }
        else { s with sess := metaUpd s.sess rec })
    ∧ (rec.type ≠ "system" →
      (segStep s rec).pending = s.pending ∨ (segStep s rec).pending = 0)
    ∧ (closingUser rec = true → s.current = some t → 0 < s.pending →
      (segStep s rec).pending = 0) :=
  ⟨segStep_system s rec, segStep_pending_or_zero s rec,
    fun hcl hc hp => (segStep_closing s rec t hcl hc hp).2.1⟩

/-- Witness for C9 at a concrete open-turn state with 3 ms pending:
a `turn_duration` note of 9 ms overwrites the pending value, a closing
user record resets it to zero. -/
theorem c9_pending_discipline_witness :
    segStep c9state c9note = { c9state with pending := 9, sess := metaUpd c9state.sess c9note }
    ∧ ((segStep c9state c9close).pending = 3 ∨ (segStep c9state c9close).pending = 0)
    ∧ (segStep c9state c9close).pending = 0 := by
  refine ⟨?_, ?_, ?_⟩
  · have h := (c9_pending_discipline c9state c9note c1turn).1 rfl
    rw [h, if_pos (by decide)]
    rfl
  · exact (c9_pending_discipline c9state c9close c1turn).2.1 (by decide)
  · exact (c9_pending_discipline c9state c9close c1turn).2.2 (by decide) rfl (by decide)

end ClaudeReplay
